import Mathlib

/-
  Verification development for the sui event fan-out service
  (crates/sui-core/src/cache_update_handler.rs and crates/sui-core/src/tx_handler.rs).

  The two Rust modules implement one skeleton twice: a Unix-socket listener, an
  accept task appending connections to a mutex-guarded registry, an unbounded
  mpsc queue, and a dispatcher that serializes each queued message and fans it
  out to every registered connection, pruning connections whose write fails.

  This file shallowly embeds that code: pure fragments become Lean functions,
  the task interleavings become explicit step functions over state records, and
  the OS/serialization-library boundary (socket bind semantics, bcs, bincode,
  serde_json) is modelled where the repository itself contains no code for it;
  every such model carries a doc comment starting with the words Modelled from
  the spec.  Definitions come first, all theorems follow.
-/

namespace Sui

/-! ## Fixed four-byte length fields

    cache_update_handler.rs writes the payload length as
    (serialized.len() as u32).to_le_bytes(); tx_handler.rs writes the two
    section lengths as (len as u32).to_be_bytes().  The cast truncates the
    length modulo 2^32, which the digit decomposition below reproduces. -/

/-- Little-endian four-byte encoding of a length, as produced by
    u32::to_le_bytes after the cast from usize (truncation modulo 2^32). -/
def toLE32 (n : Nat) : List Nat :=
  [n % 256, n / 256 % 256, n / 256 ^ 2 % 256, n / 256 ^ 3 % 256]

/-- Reads a little-endian four-byte length field off the front of a stream. -/
def fromLE32 : List Nat → Option (Nat × List Nat)
  | a :: b :: c :: d :: rest => some (a + 256 * b + 256 ^ 2 * c + 256 ^ 3 * d, rest)
  | _ => none

/-- Big-endian four-byte encoding of a length, as produced by
    u32::to_be_bytes after the cast from usize (truncation modulo 2^32). -/
def toBE32 (n : Nat) : List Nat :=
  [n / 256 ^ 3 % 256, n / 256 ^ 2 % 256, n / 256 % 256, n % 256]

/-- Reads a big-endian four-byte length field off the front of a stream. -/
def fromBE32 : List Nat → Option (Nat × List Nat)
  | a :: b :: c :: d :: rest => some (256 ^ 3 * a + 256 ^ 2 * b + 256 * c + d, rest)
  | _ => none

/-! ## ULEB128 varints

    Modelled from the spec: the compact binary object encoding (bcs) is not in
    this repository, so its sequence framing is modelled here: every sequence
    is prefixed with its element count as a ULEB128 varint.  The encoder is
    written with structural fuel so that it reduces definitionally; fuel n + 1
    always suffices to encode n. -/

/-- ULEB128 encoder with structural fuel; the fuel bounds the number of
    produced groups and any fuel above the encoded value is enough. -/
def ulebAux : Nat → Nat → List Nat
  | 0, _ => []
  | f + 1, n => if n < 128 then [n] else (n % 128 + 128) :: ulebAux f (n / 128)

/-- ULEB128 encoding of a natural number. -/
def uleb (n : Nat) : List Nat := ulebAux (n + 1) n

/-- ULEB128 decoder: strips one varint off the front of a stream. -/
def ulebDec : List Nat → Option (Nat × List Nat)
  | [] => none
  | b :: rest =>
    if b < 128 then some (b, rest)
    else
      match ulebDec rest with
      | some (m, r) => some (b - 128 + 128 * m, r)
      | none => none

/-! ## Decimal digit rendering, for the JSON model -/

/-- Decimal digits of a natural number, most significant first, with
    structural fuel; fuel n + 1 always suffices. -/
def decDigitsAux : Nat → Nat → List Nat
  | 0, _ => []
  | f + 1, n => if n < 10 then [n] else decDigitsAux f (n / 10) ++ [n % 10]

/-- Decimal digits of a natural number, most significant first. -/
def decDigits (n : Nat) : List Nat := decDigitsAux (n + 1) n

/-- ASCII bytes of the decimal rendering of a natural number. -/
def decBytesOf (n : Nat) : List Nat := (decDigits n).map (· + 48)

/-- Value of a most-significant-first digit list. -/
def undigits : List Nat → Nat
  | [] => 0
  | d :: ds => d * 10 ^ ds.length + undigits ds

/-! ## Variant A payload: the object-update list and its bcs model

    cache_update_handler.rs serializes message.objects, a Vec of
    (ObjectID, Object) pairs, with bcs::to_bytes.  ObjectID and Object live in
    the sui-types crate, outside this repository; following the spec, which
    calls them an identifier and an object-snapshot, both are modelled as
    opaque byte sequences. -/

/-- Modelled from the spec: an object identifier, an opaque byte sequence. -/
abbrev ObjectID := List Nat

/-- Modelled from the spec: an object snapshot, an opaque byte sequence. -/
abbrev Object := List Nat

/-- Modelled from the spec: bcs encoding of one opaque byte sequence, its
    ULEB128 length followed by the bytes. -/
def bcsBytes (xs : List Nat) : List Nat := uleb xs.length ++ xs

/-- Decoder matching bcsBytes: reads the length varint, then that many bytes. -/
def bcsBytesDec (bs : List Nat) : Option (List Nat × List Nat) :=
  match ulebDec bs with
  | some (n, r) => if n ≤ r.length then some (r.take n, r.drop n) else none
  | none => none

/-- Modelled from the spec: bcs encoding of one (identifier, object) pair. -/
def bcsPair (p : ObjectID × Object) : List Nat := bcsBytes p.1 ++ bcsBytes p.2

/-- Decoder matching bcsPair. -/
def bcsPairDec (bs : List Nat) : Option ((ObjectID × Object) × List Nat) :=
  match bcsBytesDec bs with
  | some (i, r) =>
    match bcsBytesDec r with
    | some (o, r2) => some ((i, o), r2)
    | none => none
  | none => none

/-- Modelled from the spec: bcs encoding of the whole update-list, the ULEB128
    element count followed by each pair in order. -/
def bcsUpdateList (l : List (ObjectID × Object)) : List Nat :=
  uleb l.length ++ (l.map bcsPair).flatten

/-- Decodes exactly n consecutive pairs off the front of a stream. -/
def bcsPairsDec : Nat → List Nat → Option (List (ObjectID × Object) × List Nat)
  | 0, bs => some ([], bs)
  | n + 1, bs =>
    match bcsPairDec bs with
    | some (p, r) =>
      match bcsPairsDec n r with
      | some (l, r2) => some (p :: l, r2)
      | none => none
    | none => none

/-- Decoder matching bcsUpdateList. -/
def bcsUpdateListDec (bs : List Nat) : Option (List (ObjectID × Object) × List Nat) :=
  match ulebDec bs with
  | some (n, r) => bcsPairsDec n r
  | none => none

/-- Variant A frame, as written by CacheUpdateHandler::send_to_all_connections
    and send_to_connection: four little-endian bytes holding the serialized
    list's length cast to u32 (truncating), then the serialized list. -/
def cacheFrame (objects : List (ObjectID × Object)) : List Nat :=
  toLE32 (bcsUpdateList objects).length ++ bcsUpdateList objects

/-- Modelled from the spec: a Variant A reader takes the frame size from the
    length field before parsing, consumes exactly that many payload bytes and
    decodes the update-list from them, leaving the rest of the stream. -/
def cacheFrameDec (bs : List Nat) : Option (List (ObjectID × Object) × List Nat) :=
  match fromLE32 bs with
  | some (n, r) =>
    if n ≤ r.length then
      match bcsUpdateListDec (r.take n) with
      | some (l, leftover) => if leftover = [] then some (l, r.drop n) else none
      | none => none
    else none
  | none => none

/-! ## Variant B payload: transaction effects and events

    tx_handler.rs serializes message.effects with bincode::serialize and
    message.events with serde_json::to_vec.  TransactionEffects and SuiEvent
    live outside this repository; following the spec they are modelled as an
    opaque record and an opaque event code. -/

/-- Modelled from the spec: a transaction-effects record, opaque to the
    channel; two byte-sequence components stand in for its fields. -/
structure TransactionEffects where
  digestBytes : List Nat
  body : List Nat

/-- Modelled from the spec: the compact binary (bincode) serialization of a
    transaction-effects record, an injective concatenation of its
    length-prefixed components. -/
def bincodeEffects (e : TransactionEffects) : List Nat :=
  bcsBytes e.digestBytes ++ bcsBytes e.body

/-- Decoder matching bincodeEffects; consumes its entire input slice. -/
def bincodeEffectsDec (bs : List Nat) : Option TransactionEffects :=
  match bcsBytesDec bs with
  | some (d, r) =>
    match bcsBytesDec r with
    | some (b, r2) => if r2 = [] then some ⟨d, b⟩ else none
    | none => none
  | none => none

/-- Modelled from the spec: an event record, abstracted to a numeric code. -/
abbrev SuiEvent := Nat

/-- Is this byte an ASCII decimal digit? -/
def isDigitByte (b : Nat) : Bool := decide (48 ≤ b ∧ b ≤ 57)

/-- Comma-separated JSON rendering of the events of a list. -/
def jsonItems : List SuiEvent → List Nat
  | [] => []
  | [e] => decBytesOf e
  | e :: rest => decBytesOf e ++ 44 :: jsonItems rest

/-- Modelled from the spec: the serde_json rendering of the event list as a
    JSON array, one bracketed comma-separated sequence of event renderings. -/
def jsonEvents (evs : List SuiEvent) : List Nat := 91 :: jsonItems evs ++ [93]

/-- Takes the longest run of ASCII digits off the front of a stream. -/
def takeDigits : List Nat → List Nat × List Nat
  | [] => ([], [])
  | b :: r =>
    if isDigitByte b then
      let p := takeDigits r
      (b :: p.1, p.2)
    else ([], b :: r)

/-- Holds when a stream does not begin with an ASCII digit, so a digit run
    ending right before it is maximal. -/
def notDigitStart : List Nat → Prop
  | [] => True
  | b :: _ => isDigitByte b = false

/-- Parses one decimal number off the front of a stream. -/
def parseNat (bs : List Nat) : Option (Nat × List Nat) :=
  match takeDigits bs with
  | ([], _) => none
  | (ds, r) => some (undigits (ds.map (· - 48)), r)

/-- Parses the items of a non-empty JSON array up to and including the closing
    bracket; the fuel bounds the number of items. -/
def parseItems : Nat → List Nat → Option (List SuiEvent × List Nat)
  | 0, _ => none
  | fuel + 1, bs =>
    match parseNat bs with
    | some (n, r) =>
      match r with
      | 44 :: r2 =>
        match parseItems fuel r2 with
        | some (l, r3) => some (n :: l, r3)
        | none => none
      | 93 :: r2 => some ([n], r2)
      | _ => none
    | none => none

/-- Decoder matching jsonEvents: strips one JSON array off the stream; an
    immediate closing bracket is the empty array, anything else is parsed as a
    non-empty item list. -/
def jsonEventsDec (bs : List Nat) : Option (List SuiEvent × List Nat) :=
  match bs with
  | 91 :: r =>
    if r.head? = some 93 then some ([], r.tail)
    else parseItems (r.length + 1) r
  | _ => none

/-- Variant B frame, as written by TxHandler::send_to_all_connections and
    send_to_connection: four big-endian bytes with the serialized effects'
    length cast to u32 (truncating), the serialized effects, four big-endian
    bytes with the serialized events' length cast to u32, then the events as a
    JSON array. -/
def txFrame (effects : TransactionEffects) (events : List SuiEvent) : List Nat :=
  toBE32 (bincodeEffects effects).length ++ bincodeEffects effects ++
    toBE32 (jsonEvents events).length ++ jsonEvents events

/-- Modelled from the spec: a Variant B reader takes each section's size from
    its own length field before parsing, decoding effects from exactly the
    first slice and the event array from exactly the second slice. -/
def txFrameDec (bs : List Nat) : Option ((TransactionEffects × List SuiEvent) × List Nat) :=
  match fromBE32 bs with
  | some (elen, r) =>
    if elen ≤ r.length then
      match bincodeEffectsDec (r.take elen) with
      | some e =>
        match fromBE32 (r.drop elen) with
        | some (vlen, r2) =>
          if vlen ≤ r2.length then
            match jsonEventsDec (r2.take vlen) with
            | some (evs, leftover) =>
              if leftover = [] then some ((e, evs), r2.drop vlen) else none
            | none => none
          else none
        | none => none
      | none => none
    else none
  | none => none

/-- Modelled from the spec: a Variant B reader that wants only the effects
    skips the whole event section using nothing but its length field, never
    parsing an event byte, and lands on the rest of the stream. -/
def txFrameEffectsOnly (bs : List Nat) : Option (TransactionEffects × List Nat) :=
  match fromBE32 bs with
  | some (elen, r) =>
    if elen ≤ r.length then
      match bincodeEffectsDec (r.take elen) with
      | some e =>
        match fromBE32 (r.drop elen) with
        | some (vlen, r2) => if vlen ≤ r2.length then some (e, r2.drop vlen) else none
        | none => none
      | none => none
    else none
  | none => none

/-! ## The publish queue and the producer-facing calls -/

/-- State of one unbounded mpsc channel: whether the receiving (dispatcher)
    side has terminated, and the messages accepted so far in order. -/
structure QueueState (α : Type) where
  closed : Bool
  msgs : List α

/-- Send on tokio's unbounded mpsc channel: appends to the tail and never
    waits; fails exactly when the receiver has been dropped, in which case the
    message is not enqueued. -/
def mpscSend {α : Type} (q : QueueState α) (m : α) : Bool × QueueState α :=
  if q.closed then (false, q) else (true, { q with msgs := q.msgs ++ [m] })

/-- Message type queued by CacheUpdateHandler: one batch of object updates. -/
structure CacheBroadcastMessage where
  objects : List (ObjectID × Object)

/-- Message type queued by TxHandler: one effects record plus its events. -/
structure BroadcastMessage where
  effects : TransactionEffects
  events : List SuiEvent

namespace CacheUpdateHandler

/-- CacheUpdateHandler::queue_for_broadcast: wraps the batch in a message,
    sends it on the unbounded channel, and maps a send failure to the anyhow
    error Broadcast task has stopped. -/
def queue_for_broadcast (q : QueueState CacheBroadcastMessage)
    (objects : List (ObjectID × Object)) :
    Except String Unit × QueueState CacheBroadcastMessage :=
  let message : CacheBroadcastMessage := { objects := objects }
  match mpscSend q message with
  | (true, q2) => (Except.ok (), q2)
  | (false, q2) => (Except.error "Broadcast task has stopped", q2)

/-- CacheUpdateHandler::notify_written: calls queue_for_broadcast and discards
    its Result (the Rust body is let _ = self.queue_for_broadcast(..)), so the
    caller always gets back unit. -/
def notify_written (q : QueueState CacheBroadcastMessage)
    (objects : List (ObjectID × Object)) :
    Unit × QueueState CacheBroadcastMessage :=
  ((), (queue_for_broadcast q objects).2)

end CacheUpdateHandler

namespace TxHandler

/-- TxHandler::queue_for_broadcast: wraps effects and events in a message,
    sends it on the unbounded channel, and maps a send failure to the anyhow
    error Broadcast task has stopped. -/
def queue_for_broadcast (q : QueueState BroadcastMessage)
    (effects : TransactionEffects) (events : List SuiEvent) :
    Except String Unit × QueueState BroadcastMessage :=
  let message : BroadcastMessage := { effects := effects, events := events }
  match mpscSend q message with
  | (true, q2) => (Except.ok (), q2)
  | (false, q2) => (Except.error "Broadcast task has stopped", q2)

/-- TxHandler::send_tx_effects_and_events: clones the effects and forwards to
    queue_for_broadcast, returning that call's Result unchanged. -/
def send_tx_effects_and_events (q : QueueState BroadcastMessage)
    (effects : TransactionEffects) (events : List SuiEvent) :
    Except String Unit × QueueState BroadcastMessage :=
  queue_for_broadcast q effects events

end TxHandler

/-! ## Handler construction and the socket path -/

/-- Observable state of the configured socket path: whether a file exists
    there, and whether a live listener currently serves that address.  For a
    path-bound Unix socket a live listener implies the file exists; theorems
    assume that where needed. -/
structure FsEnv where
  pathExists : Bool
  listenerLive : Bool

/-- Outcome of a handler constructor: a fatal startup panic, or success
    together with whether a stale file was removed along the way. -/
inductive NewOutcome where
  | fatal (msg : String)
  | ok (removedStale : Bool)

namespace CacheUpdateHandler

/-- CacheUpdateHandler::is_socket_in_use: false when no file exists at the
    path; otherwise probes with a transient client connection, which succeeds
    exactly when a live listener is serving the address. -/
def is_socket_in_use (env : FsEnv) : Bool := env.pathExists && env.listenerLive

/-- Constructor logic of CacheUpdateHandler::new: panics when the probe finds
    a live listener, otherwise removes any stale file and binds.  Modelled
    from the spec at the OS boundary: after the stale file is removed no live
    listener remains on the path, so the fresh bind succeeds. -/
def new (env : FsEnv) : NewOutcome :=
  if is_socket_in_use env then
    NewOutcome.fatal "Socket is already in use by another process"
  else
    NewOutcome.ok env.pathExists

/-- CacheUpdateHandler::connection_count: try_lock on the registry mutex and
    return the length, or 0 when the lock is currently held elsewhere. -/
def connection_count (lockHeldElsewhere : Bool) (conns : List Nat) : Nat :=
  if lockHeldElsewhere then 0 else conns.length

end CacheUpdateHandler

namespace TxHandler

/-- Constructor logic of TxHandler::new: unconditionally removes any file at
    the path (ignoring the result), then binds a namespaced local socket and
    panics if the bind fails.  Modelled from the spec at the OS boundary:
    binding a name owned by a live listener is the fatal address-in-use case;
    with no live listener the bind succeeds. -/
def new (env : FsEnv) : NewOutcome :=
  let removedStale := env.pathExists
  if env.listenerLive then NewOutcome.fatal "Failed to bind tx socket"
  else NewOutcome.ok removedStale

/-- TxHandler::connection_count: try_lock on the registry mutex and return
    the length, or 0 when the lock is currently held elsewhere. -/
def connection_count (lockHeldElsewhere : Bool) (conns : List Nat) : Nat :=
  if lockHeldElsewhere then 0 else conns.length

end TxHandler

/-! ## Trace model of accept, publish and dispatch

    Both handlers share this skeleton; the mutex makes an append and a whole
    fan-out pass atomic with respect to each other (the fine-grained model
    below justifies that), so a run is a sequence of three atomic events.
    Messages are identified by their enqueue index; the fields accDisp,
    accEnq, dispLog and removedLog are specification ghosts recording when a
    connection was accepted, what has been fanned out, and which connections
    were pruned and when. -/

/-- One live connection: its identity, how many messages had been fanned out
    and enqueued when its accept completed, and what it has received. -/
structure Conn where
  id : Nat
  accDisp : Nat
  accEnq : Nat
  received : List Nat

/-- Ghost record of one pruned connection: its final state and how many
    messages had been fanned out when its write failed. -/
structure RemovedEntry where
  conn : Conn
  failPos : Nat

/-- Appends one delivered enqueue index to a connection's receive log. -/
def mark (i : Nat) (c : Conn) : Conn := { c with received := c.received ++ [i] }

/-- The pop/push loop of send_to_all_connections: conns.pop() takes from the
    tail of the Vec, so the loop runs over the reversed registry; a connection
    whose write succeeds is pushed onto the survivor list with the message
    appended to its receive log, a connection whose write fails is dropped
    (and recorded in the ghost removal list with position p). -/
def popLoop (i p : Nat) (wfail : Nat → Bool) :
    List Conn → List Conn → List RemovedEntry → List Conn × List RemovedEntry
  | [], acc, rem => (acc, rem)
  | c :: rest, acc, rem =>
    if wfail c.id then popLoop i p wfail rest acc (rem ++ [⟨c, p⟩])
    else popLoop i p wfail rest (acc ++ [mark i c]) rem

/-- send_to_all_connections (same skeleton in both handlers): under the mutex,
    pop every connection, attempt the write, and install the survivors as the
    new registry contents. -/
def send_to_all_connections (i p : Nat) (wfail : Nat → Bool) (conns : List Conn) :
    List Conn × List RemovedEntry :=
  popLoop i p wfail conns.reverse [] []

/-- Global state of one channel instance. -/
structure SysState where
  nextConnId : Nat
  registry : List Conn
  queue : List (Nat × Bool)
  enqCount : Nat
  dispLog : List Nat
  removedLog : List RemovedEntry

/-- The three atomic events: an accept completing and appending under the
    mutex; a producer enqueue carrying whether this message will serialize;
    and one dispatcher iteration, with wfail choosing which connections'
    writes fail this pass. -/
inductive Ev where
  | connect
  | publish (serOk : Bool)
  | dispatch (wfail : Nat → Bool)

/-- One atomic transition.  connect appends a fresh connection; publish
    appends to the queue tail; dispatch takes the next queued message — if
    the queue is empty the dispatcher just suspends — serializes it (on
    failure the message is silently skipped) and fans it out. -/
def step (s : SysState) : Ev → SysState
  | Ev.connect =>
    { s with
      registry := s.registry ++ [⟨s.nextConnId, s.dispLog.length, s.enqCount, []⟩],
      nextConnId := s.nextConnId + 1 }
  | Ev.publish serOk =>
    { s with queue := s.queue ++ [(s.enqCount, serOk)], enqCount := s.enqCount + 1 }
  | Ev.dispatch wfail =>
    match s.queue with
    | [] => s
    | (i, serOk) :: rest =>
      if serOk then
        let out := send_to_all_connections i s.dispLog.length wfail s.registry
        { s with
          registry := out.1, queue := rest,
          dispLog := s.dispLog ++ [i], removedLog := s.removedLog ++ out.2 }
      else { s with queue := rest }

/-- Fresh channel: empty registry, empty queue, nothing delivered. -/
def init : SysState := ⟨0, [], [], 0, [], []⟩

/-- Runs a sequence of events from an arbitrary state. -/
def runFrom (s : SysState) (evs : List Ev) : SysState := evs.foldl step s

/-- Runs a sequence of events from the fresh channel. -/
def run (evs : List Ev) : SysState := runFrom init evs

/-- Identities of all pruned connections. -/
def removedIds (s : SysState) : List Nat := s.removedLog.map (fun r => r.conn.id)

/-- Delivery invariant: a live connection has received exactly the indices
    fanned out since its accept; a pruned connection exactly those between its
    accept and its write failure; and the dispatch log followed by the pending
    queue indices is strictly increasing and below the enqueue counter. -/
def Inv (s : SysState) : Prop :=
  (∀ c ∈ s.registry,
    c.accDisp ≤ s.dispLog.length ∧ c.received = s.dispLog.drop c.accDisp) ∧
  (∀ r ∈ s.removedLog,
    r.conn.accDisp ≤ r.failPos ∧ r.failPos ≤ s.dispLog.length ∧
      r.conn.received = (s.dispLog.take r.failPos).drop r.conn.accDisp) ∧
  List.Pairwise (· < ·) (s.dispLog ++ s.queue.map Prod.fst) ∧
  (∀ x ∈ s.dispLog ++ s.queue.map Prod.fst, x < s.enqCount)

/-- Identity invariant: live and pruned connection identities are pairwise
    distinct and all below the fresh-id counter. -/
def IdInv (s : SysState) : Prop :=
  (s.registry.map Conn.id ++ removedIds s).Nodup ∧
  (∀ i ∈ s.registry.map Conn.id ++ removedIds s, i < s.nextConnId)

/-! ## Fine-grained interleaving of the registry mutex

    This model breaks the fan-out pass into individual lock, pop/write and
    replace steps to check the claim that the accept task can never interleave
    an append with an in-progress drain: connections are bare identifiers, and
    a step that is blocked (its lock or guard is not available) returns none. -/

/-- Who currently holds the registry mutex. -/
inductive LockOwner where
  | free
  | acceptor
  | dispatcher
deriving DecidableEq

/-- Fine-grained state: the mutex, the registry contents, connections
    accepted from the OS but not yet appended, the dispatcher's survivor
    accumulator and whether it is mid-drain, plus ghost pruned ids. -/
structure GState where
  lock : LockOwner
  registry : List Nat
  pending : List Nat
  nextId : Nat
  draining : Bool
  survivors : List Nat
  pruned : List Nat

/-- Fine-grained events: the OS hands the accept task a connection; the accept
    task takes the lock and appends; the dispatcher takes the lock to start a
    fan-out, pops and writes one connection (wfail tells whether that write
    fails), and finally installs the survivors and releases the lock. -/
inductive GEv where
  | osAccept
  | acqAccept
  | appendConn
  | acqDisp
  | popWrite (wfail : Bool)
  | finishDrain

/-- One fine-grained step; none when the step is blocked. -/
def gstep (s : GState) : GEv → Option GState
  | GEv.osAccept =>
    some { s with pending := s.pending ++ [s.nextId], nextId := s.nextId + 1 }
  | GEv.acqAccept =>
    match s.lock, s.pending with
    | LockOwner.free, _ :: _ => some { s with lock := LockOwner.acceptor }
    | _, _ => none
  | GEv.appendConn =>
    match s.lock, s.pending with
    | LockOwner.acceptor, c :: rest =>
      some { s with registry := s.registry ++ [c], pending := rest,
                    lock := LockOwner.free }
    | _, _ => none
  | GEv.acqDisp =>
    match s.lock, s.draining with
    | LockOwner.free, false =>
      some { s with lock := LockOwner.dispatcher, draining := true, survivors := [] }
    | _, _ => none
  | GEv.popWrite wfail =>
    match s.lock, s.draining, s.registry.getLast? with
    | LockOwner.dispatcher, true, some c =>
      some { s with registry := s.registry.dropLast,
                    survivors := if wfail then s.survivors else s.survivors ++ [c],
                    pruned := if wfail then s.pruned ++ [c] else s.pruned }
    | _, _, _ => none
  | GEv.finishDrain =>
    match s.lock, s.draining, s.registry with
    | LockOwner.dispatcher, true, [] =>
      some { s with registry := s.survivors, survivors := [],
                    draining := false, lock := LockOwner.free }
    | _, _, _ => none

/-- Takes a step when enabled; a blocked task leaves the state unchanged. -/
def gstepOr (s : GState) (e : GEv) : GState := (gstep s e).getD s

/-- Fresh fine-grained state. -/
def ginit : GState := ⟨LockOwner.free, [], [], 0, false, [], []⟩

/-- Runs a fine-grained event sequence from the fresh state. -/
def grun (evs : List GEv) : GState := evs.foldl gstepOr ginit

/-- Every connection the system currently tracks: in the registry, in the
    dispatcher's survivor accumulator, or accepted and awaiting append. -/
def gconns (s : GState) : List Nat := s.registry ++ s.survivors ++ s.pending

/-- Mutex invariant of the fine-grained model: a drain in progress is always
    covered by the dispatcher's hold of the lock, tracked connections are
    pairwise distinct (none lost to double-counting), and every identity ever
    seen is below the fresh-id counter. -/
def GInv (s : GState) : Prop :=
  (s.draining = true → s.lock = LockOwner.dispatcher) ∧
  (gconns s).Nodup ∧
  (∀ x ∈ gconns s ++ s.pruned, x < s.nextId)

/-! ## Concrete inputs used by counterexamples -/

/-- Trace for the delivery-window counterexample: one message is enqueued,
    then a client connects, then the dispatcher fans the queued message out. -/
def c1trace : List Ev := [Ev.publish true, Ev.connect, Ev.dispatch (fun _ => false)]

/-- Update-list whose bcs serialization is 2^33 + 5 bytes long, overflowing
    the four-byte length field. -/
def cexObjects : List (ObjectID × Object) := List.replicate (2 ^ 32) ([], [])

/-- Effects record whose serialization is 2^33 + 6 bytes long, overflowing
    the four-byte length field. -/
def cexEffects : TransactionEffects := ⟨List.replicate (2 ^ 33) 0, []⟩

/-! # Theorems -/

/-! ## Length fields -/

theorem fromLE32_toLE32 (n : Nat) (rest : List Nat) :
    fromLE32 (toLE32 n ++ rest) = some (n % 2 ^ 32, rest) := by
  simp only [toLE32, fromLE32, List.cons_append, List.nil_append]
  congr 2
  omega

theorem fromBE32_toBE32 (n : Nat) (rest : List Nat) :
    fromBE32 (toBE32 n ++ rest) = some (n % 2 ^ 32, rest) := by
  simp only [toBE32, fromBE32, List.cons_append, List.nil_append]
  congr 2
  omega

theorem toLE32_length (n : Nat) : (toLE32 n).length = 4 := rfl

theorem toBE32_length (n : Nat) : (toBE32 n).length = 4 := rfl

/-! ## ULEB128 -/

lemma ulebAux_fuel (fuel₁ fuel₂ n : Nat) (h₁ : n < fuel₁) (h₂ : n < fuel₂) :
    ulebAux fuel₁ n = ulebAux fuel₂ n := by
  induction fuel₁ generalizing fuel₂ n with
  | zero => omega
  | succ f ih =>
    cases fuel₂ with
    | zero => omega
    | succ g =>
      rw [ulebAux, ulebAux]
      by_cases hn : n < 128
      · rw [if_pos hn, if_pos hn]
      · have hd : n / 128 < n := Nat.div_lt_self (by omega) (by omega)
        rw [if_neg hn, if_neg hn, ih g (n / 128) (by omega) (by omega)]

lemma uleb_eq (n : Nat) :
    uleb n = if n < 128 then [n] else (n % 128 + 128) :: uleb (n / 128) := by
  by_cases h : n < 128
  · rw [uleb, ulebAux, if_pos h, if_pos h]
  · rw [uleb, ulebAux, if_neg h, if_neg h]
    have hd : n / 128 < n := Nat.div_lt_self (by omega) (by omega)
    congr 1
    exact ulebAux_fuel n (n / 128 + 1) (n / 128) (by omega) (by omega)

theorem ulebDec_uleb (n : Nat) (rest : List Nat) :
    ulebDec (uleb n ++ rest) = some (n, rest) := by
  suffices h : ∀ fuel m, m < fuel → ulebDec (ulebAux fuel m ++ rest) = some (m, rest) by
    exact h (n + 1) n (Nat.lt_succ_self n)
  intro fuel
  induction fuel with
  | zero => omega
  | succ f ih =>
    intro m hm
    rw [ulebAux]
    by_cases hsmall : m < 128
    · rw [if_pos hsmall]
      simp [ulebDec, hsmall]
    · have hd : m / 128 < m := Nat.div_lt_self (by omega) (by omega)
      rw [if_neg hsmall, List.cons_append, ulebDec]
      have hge : ¬ (m % 128 + 128 < 128) := by omega
      rw [if_neg hge, ih (m / 128) (by omega)]
      show some (m % 128 + 128 - 128 + 128 * (m / 128), rest) = some (m, rest)
      have hv : m % 128 + 128 - 128 + 128 * (m / 128) = m := by omega
      rw [hv]

theorem uleb_byte_lt (n : Nat) : ∀ b ∈ uleb n, b < 256 := by
  suffices h : ∀ fuel m, m < fuel → ∀ b ∈ ulebAux fuel m, b < 256 by
    exact h (n + 1) n (Nat.lt_succ_self n)
  intro fuel
  induction fuel with
  | zero => omega
  | succ f ih =>
    intro m hm b hb
    rw [ulebAux] at hb
    by_cases hsmall : m < 128
    · rw [if_pos hsmall, List.mem_singleton] at hb
      subst hb
      omega
    · have hd : m / 128 < m := Nat.div_lt_self (by omega) (by omega)
      rw [if_neg hsmall] at hb
      rcases List.mem_cons.mp hb with hb | hb
      · subst hb
        omega
      · exact ih (m / 128) (by omega) b hb

/-! ## Decimal digits -/

lemma undigits_append_single (ds : List Nat) (d : Nat) :
    undigits (ds ++ [d]) = undigits ds * 10 + d := by
  induction ds with
  | nil => simp [undigits]
  | cons x xs ih =>
    show undigits (x :: (xs ++ [d])) = _
    simp only [undigits, ih, List.length_append, List.length_cons, List.length_nil]
    ring

theorem undigits_decDigits (n : Nat) : undigits (decDigits n) = n := by
  suffices h : ∀ fuel m, m < fuel → undigits (decDigitsAux fuel m) = m by
    exact h (n + 1) n (Nat.lt_succ_self n)
  intro fuel
  induction fuel with
  | zero => omega
  | succ f ih =>
    intro m hm
    rw [decDigitsAux]
    by_cases hsmall : m < 10
    · rw [if_pos hsmall]
      simp [undigits]
    · have hd : m / 10 < m := Nat.div_lt_self (by omega) (by omega)
      rw [if_neg hsmall, undigits_append_single, ih (m / 10) (by omega)]
      omega

theorem decDigits_lt_ten (n : Nat) : ∀ d ∈ decDigits n, d < 10 := by
  suffices h : ∀ fuel m, m < fuel → ∀ d ∈ decDigitsAux fuel m, d < 10 by
    exact h (n + 1) n (Nat.lt_succ_self n)
  intro fuel
  induction fuel with
  | zero => omega
  | succ f ih =>
    intro m hm d hd
    rw [decDigitsAux] at hd
    by_cases hsmall : m < 10
    · rw [if_pos hsmall, List.mem_singleton] at hd
      subst hd
      omega
    · have hlt : m / 10 < m := Nat.div_lt_self (by omega) (by omega)
      rw [if_neg hsmall] at hd
      rcases List.mem_append.mp hd with hd | hd
      · exact ih (m / 10) (by omega) d hd
      · rw [List.mem_singleton] at hd
        subst hd
        omega

theorem decDigits_ne_nil (n : Nat) : decDigits n ≠ [] := by
  suffices h : ∀ fuel m, m < fuel → decDigitsAux fuel m ≠ [] by
    exact h (n + 1) n (Nat.lt_succ_self n)
  intro fuel
  cases fuel with
  | zero => omega
  | succ f =>
    intro m hm
    rw [decDigitsAux]
    by_cases hsmall : m < 10
    · rw [if_pos hsmall]
      simp
    · rw [if_neg hsmall]
      simp

/-! ## bcs model round trips -/

theorem bcsBytesDec_bcsBytes (xs rest : List Nat) :
    bcsBytesDec (bcsBytes xs ++ rest) = some (xs, rest) := by
  simp only [bcsBytes, bcsBytesDec, List.append_assoc, ulebDec_uleb]
  rw [if_pos (by simp), List.take_left, List.drop_left]

theorem bcsPairDec_bcsPair (p : ObjectID × Object) (rest : List Nat) :
    bcsPairDec (bcsPair p ++ rest) = some (p, rest) := by
  simp only [bcsPair, bcsPairDec, List.append_assoc, bcsBytesDec_bcsBytes]

theorem bcsPairsDec_flatten (l : List (ObjectID × Object)) (rest : List Nat) :
    bcsPairsDec l.length ((l.map bcsPair).flatten ++ rest) = some (l, rest) := by
  induction l generalizing rest with
  | nil => simp [bcsPairsDec]
  | cons p tl ih =>
    simp only [List.map_cons, List.flatten_cons, List.length_cons, List.append_assoc,
      bcsPairsDec, bcsPairDec_bcsPair, ih]

theorem bcsUpdateListDec_enc (l : List (ObjectID × Object)) (rest : List Nat) :
    bcsUpdateListDec (bcsUpdateList l ++ rest) = some (l, rest) := by
  simp only [bcsUpdateList, bcsUpdateListDec, List.append_assoc, ulebDec_uleb,
    bcsPairsDec_flatten]

lemma bcsPairsDec_succ_nil (n : Nat) : bcsPairsDec (n + 1) [] = none := rfl

lemma flatten_replicate_length (n : Nat) (xs : List Nat) :
    ((List.replicate n xs).flatten).length = n * xs.length := by
  induction n with
  | zero => simp
  | succ k ih =>
    rw [List.replicate_succ, List.flatten_cons, List.length_append, ih]
    ring

/-! ## Variant A frame -/

/-- C6 (amended): encoding an update-list whose serialization fits the
    four-byte length field as a Variant A frame and decoding it yields the
    same pairs in the same order, with the rest of the stream untouched. -/
theorem c6_variantA_roundtrip (l : List (ObjectID × Object)) (rest : List Nat)
    (h : (bcsUpdateList l).length < 2 ^ 32) :
    cacheFrameDec (cacheFrame l ++ rest) = some (l, rest) := by
  have hdec : bcsUpdateListDec (bcsUpdateList l) = some (l, []) := by
    have h0 := bcsUpdateListDec_enc l []
    rwa [List.append_nil] at h0
  rw [cacheFrame, List.append_assoc]
  simp only [cacheFrameDec, fromLE32_toLE32]
  rw [Nat.mod_eq_of_lt h, if_pos (by simp), List.take_left, List.drop_left, hdec]
  simp

/-- Witness: the round trip evaluated on a one-pair list. -/
theorem c6_variantA_roundtrip_witness :
    (bcsUpdateList [([1, 2], [3])]).length < 2 ^ 32 ∧
    cacheFrameDec (cacheFrame [([1, 2], [3])] ++ []) = some ([([1, 2], [3])], []) :=
  ⟨by decide, c6_variantA_roundtrip [([1, 2], [3])] [] (by decide)⟩

/-- C6 (counterexample): for the 2^32-pair list the serialized payload is
    2^33 + 5 bytes, the length field truncates to 5, and decoding the frame
    fails instead of returning the original pairs: the round trip as claimed,
    with no bound on the list, is false. -/
theorem c6_counterexample :
    cacheFrameDec (cacheFrame cexObjects) ≠ some (cexObjects, []) := by
  have hpair : bcsPair ([], []) = [0, 0] := rfl
  have huleb32 : uleb (2 ^ 32) = [128, 128, 128, 128, 16] := by
    rw [show (2 : Nat) ^ 32 = 4294967296 from by norm_num]
    rw [uleb_eq]
    norm_num
    rw [uleb_eq]
    norm_num
    rw [uleb_eq]
    norm_num
    rw [uleb_eq]
    norm_num
    rw [uleb_eq]
    norm_num
  have huleb5 : (uleb (2 ^ 32)).length = 5 := by rw [huleb32]; rfl
  have hshape : bcsUpdateList cexObjects =
      uleb (2 ^ 32) ++ (List.replicate (2 ^ 32) [0, 0]).flatten := by
    rw [bcsUpdateList, cexObjects, List.length_replicate, List.map_replicate, hpair]
  have hplen : (bcsUpdateList cexObjects).length = 2 ^ 33 + 5 := by
    rw [hshape, List.length_append, huleb5, flatten_replicate_length]
    norm_num
  have hulebdec : ulebDec (uleb (2 ^ 32)) = some (2 ^ 32, []) := by
    have h0 := ulebDec_uleb (2 ^ 32) []
    rwa [List.append_nil] at h0
  have htake : (bcsUpdateList cexObjects).take 5 = uleb (2 ^ 32) := by
    rw [hshape]
    exact List.take_left' huleb5
  have hlistdec : bcsUpdateListDec (uleb (2 ^ 32)) = none := by
    simp only [bcsUpdateListDec, hulebdec]
    have h32 : (2 : Nat) ^ 32 = 4294967295 + 1 := by norm_num
    rw [h32, bcsPairsDec_succ_nil]
  have hnone : cacheFrameDec (cacheFrame cexObjects) = none := by
    rw [cacheFrame]
    simp only [cacheFrameDec, fromLE32_toLE32]
    rw [hplen]
    have hmod : (2 ^ 33 + 5) % 2 ^ 32 = 5 := by norm_num
    rw [hmod, if_pos (by norm_num : (5 : Nat) ≤ 2 ^ 33 + 5), htake, hlistdec]
  rw [hnone]
  simp

/-! ## JSON model round trips -/

lemma isDigitByte_of_digit (d : Nat) (h : d < 10) : isDigitByte (d + 48) = true := by
  simp only [isDigitByte, decide_eq_true_eq]
  omega

lemma decBytesOf_all_digit (n : Nat) : ∀ b ∈ decBytesOf n, isDigitByte b = true := by
  intro b hb
  rw [decBytesOf, List.mem_map] at hb
  obtain ⟨d, hd, rfl⟩ := hb
  exact isDigitByte_of_digit d (decDigits_lt_ten n d hd)

lemma decBytesOf_ne_nil (n : Nat) : decBytesOf n ≠ [] := by
  simp only [decBytesOf, ne_eq, List.map_eq_nil_iff]
  exact decDigits_ne_nil n

lemma takeDigits_append (ds rest : List Nat) (h : ∀ b ∈ ds, isDigitByte b = true)
    (h2 : notDigitStart rest) : takeDigits (ds ++ rest) = (ds, rest) := by
  induction ds with
  | nil =>
    rw [List.nil_append]
    cases rest with
    | nil => rfl
    | cons b r =>
      rw [notDigitStart] at h2
      rw [takeDigits, h2]
      simp
  | cons b ds ih =>
    rw [List.cons_append, takeDigits, h b (List.mem_cons_self b ds)]
    rw [ih (fun x hx => h x (List.mem_cons_of_mem b hx))]
    simp

lemma parseNat_dec (n : Nat) (rest : List Nat) (h2 : notDigitStart rest) :
    parseNat (decBytesOf n ++ rest) = some (n, rest) := by
  rw [parseNat, takeDigits_append (decBytesOf n) rest (decBytesOf_all_digit n) h2]
  obtain ⟨d, ds, hds⟩ := List.exists_cons_of_ne_nil (decBytesOf_ne_nil n)
  rw [hds]
  show some (undigits ((d :: ds).map (· - 48)), rest) = some (n, rest)
  rw [← hds]
  have hval : (decBytesOf n).map (· - 48) = decDigits n := by
    rw [decBytesOf, List.map_map]
    have hcomp : ((fun x => x - 48) ∘ (fun x => x + 48)) = (id : Nat → Nat) := by
      funext x
      simp
    rw [hcomp, List.map_id]
  rw [hval, undigits_decDigits]

lemma jsonItems_length_ge (evs : List SuiEvent) :
    evs.length ≤ (jsonItems evs).length + 1 := by
  induction evs with
  | nil => simp
  | cons e tl ih =>
    cases tl with
    | nil =>
      rw [jsonItems]
      simp
    | cons e2 tl2 =>
      rw [jsonItems, List.length_append, List.length_cons]
      · simp only [List.length_cons] at ih ⊢
        omega
      · simp

lemma parseItems_enc (evs : List SuiEvent) : ∀ (fuel : Nat) (rest : List Nat),
    evs ≠ [] → evs.length ≤ fuel →
    parseItems fuel (jsonItems evs ++ 93 :: rest) = some (evs, rest) := by
  induction evs with
  | nil =>
    intro fuel rest h
    exact absurd rfl h
  | cons e tl ih =>
    intro fuel rest _ hfuel
    cases fuel with
    | zero => exact absurd hfuel (by simp)
    | succ f =>
      cases tl with
      | nil =>
        have hnd : notDigitStart (93 :: rest) := by rw [notDigitStart]; rfl
        rw [jsonItems, parseItems, parseNat_dec e (93 :: rest) hnd]
      | cons e2 tl2 =>
        have hnd : notDigitStart (44 :: (jsonItems (e2 :: tl2) ++ 93 :: rest)) := by
          rw [notDigitStart]
          rfl
        rw [jsonItems, List.append_assoc, List.cons_append, parseItems,
          parseNat_dec e _ hnd]
        · show (match parseItems f (jsonItems (e2 :: tl2) ++ 93 :: rest) with
                | some (l, r3) => some (e :: l, r3)
                | none => none) = some (e :: e2 :: tl2, rest)
          rw [ih f rest (by simp) (by simp only [List.length_cons] at hfuel ⊢; omega)]
        · simp

theorem jsonEventsDec_enc (evs : List SuiEvent) (rest : List Nat) :
    jsonEventsDec (jsonEvents evs ++ rest) = some (evs, rest) := by
  cases evs with
  | nil =>
    rw [jsonEvents, jsonItems]
    simp [jsonEventsDec]
  | cons e tl =>
    obtain ⟨d, ds, hds⟩ := List.exists_cons_of_ne_nil (decDigits_ne_nil e)
    have hhead : ∃ t, jsonItems (e :: tl) = (d + 48) :: t := by
      cases tl with
      | nil =>
        refine ⟨ds.map (· + 48), ?_⟩
        rw [jsonItems, decBytesOf, hds]
        rfl
      | cons e2 tl2 =>
        refine ⟨ds.map (· + 48) ++ 44 :: jsonItems (e2 :: tl2), ?_⟩
        rw [jsonItems, decBytesOf, hds]
        · rfl
        · simp
    obtain ⟨t, ht⟩ := hhead
    have hd10 : d < 10 :=
      decDigits_lt_ten e d (by rw [hds]; exact List.mem_cons_self d ds)
    have hb : jsonEvents (e :: tl) ++ rest = 91 :: (jsonItems (e :: tl) ++ 93 :: rest) := by
      rw [jsonEvents]
      simp
    rw [hb]
    simp only [jsonEventsDec]
    rw [ht, List.cons_append, List.head?_cons]
    rw [if_neg (by simp; omega)]
    rw [← List.cons_append, ← ht]
    refine parseItems_enc (e :: tl) _ rest (by simp) ?_
    have hlen := jsonItems_length_ge (e :: tl)
    simp only [List.length_append, List.length_cons] at hlen ⊢
    omega

theorem bincodeEffectsDec_enc (e : TransactionEffects) :
    bincodeEffectsDec (bincodeEffects e) = some e := by
  obtain ⟨d, b⟩ := e
  have h2 : bcsBytesDec (bcsBytes b) = some (b, []) := by
    have h0 := bcsBytesDec_bcsBytes b []
    rwa [List.append_nil] at h0
  simp only [bincodeEffects, bincodeEffectsDec, bcsBytesDec_bcsBytes, h2]
  simp

/-! ## Variant B frame -/

/-- C7 (amended): when both serialized sections fit their four-byte length
    fields, encoding effects plus events as a Variant B frame and decoding
    yields the same effects and the same events in order; and a reader can
    skip the event section using only its own length field, landing exactly on
    the rest of the stream without parsing an event byte. -/
theorem c7_variantB_roundtrip (e : TransactionEffects) (evs : List SuiEvent) (rest : List Nat)
    (h1 : (bincodeEffects e).length < 2 ^ 32) (h2 : (jsonEvents evs).length < 2 ^ 32) :
    txFrameDec (txFrame e evs ++ rest) = some ((e, evs), rest) ∧
    txFrameEffectsOnly (txFrame e evs ++ rest) = some (e, rest) := by
  have heff : bincodeEffectsDec (bincodeEffects e) = some e := bincodeEffectsDec_enc e
  have hjson : jsonEventsDec (jsonEvents evs) = some (evs, []) := by
    have h0 := jsonEventsDec_enc evs []
    rwa [List.append_nil] at h0
  have hframe : txFrame e evs ++ rest =
      toBE32 (bincodeEffects e).length ++
        (bincodeEffects e ++
          (toBE32 (jsonEvents evs).length ++ (jsonEvents evs ++ rest))) := by
    rw [txFrame]
    simp [List.append_assoc]
  constructor
  · rw [hframe]
    simp only [txFrameDec, fromBE32_toBE32]
    rw [Nat.mod_eq_of_lt h1, if_pos (by simp), List.take_left, List.drop_left, heff]
    simp only [fromBE32_toBE32]
    rw [Nat.mod_eq_of_lt h2, if_pos (by simp), List.take_left, List.drop_left, hjson]
    simp
  · rw [hframe]
    simp only [txFrameEffectsOnly, fromBE32_toBE32]
    rw [Nat.mod_eq_of_lt h1, if_pos (by simp), List.take_left, List.drop_left, heff]
    simp only [fromBE32_toBE32]
    rw [Nat.mod_eq_of_lt h2, if_pos (by simp), List.drop_left]

/-- Witness: the Variant B round trip and skip evaluated on a two-event
    message. -/
theorem c7_variantB_roundtrip_witness :
    (bincodeEffects ⟨[1], [2, 3]⟩).length < 2 ^ 32 ∧
    (jsonEvents [0, 12]).length < 2 ^ 32 ∧
    txFrameDec (txFrame ⟨[1], [2, 3]⟩ [0, 12] ++ [7]) = some ((⟨[1], [2, 3]⟩, [0, 12]), [7]) ∧
    txFrameEffectsOnly (txFrame ⟨[1], [2, 3]⟩ [0, 12] ++ [7]) = some (⟨[1], [2, 3]⟩, [7]) :=
  ⟨by decide, by decide,
    (c7_variantB_roundtrip ⟨[1], [2, 3]⟩ [0, 12] [7] (by decide) (by decide)).1,
    (c7_variantB_roundtrip ⟨[1], [2, 3]⟩ [0, 12] [7] (by decide) (by decide)).2⟩

/-- C7 (counterexample): for an effects record serializing to 2^33 + 6 bytes
    the length field truncates to 6, and decoding the frame fails instead of
    returning the original record: the round trip as claimed, with no bound on
    the payload, is false. -/
theorem c7_counterexample :
    txFrameDec (txFrame cexEffects []) ≠ some ((cexEffects, []), []) := by
  have huleb33 : uleb (2 ^ 33) = [128, 128, 128, 128, 32] := by
    rw [show (2 : Nat) ^ 33 = 8589934592 from by norm_num]
    rw [uleb_eq]
    norm_num
    rw [uleb_eq]
    norm_num
    rw [uleb_eq]
    norm_num
    rw [uleb_eq]
    norm_num
    rw [uleb_eq]
    norm_num
  have h5 : (uleb (2 ^ 33)).length = 5 := by rw [huleb33]; rfl
  have hbb : bcsBytes ([] : List Nat) = [0] := rfl
  have hshapeE : bincodeEffects cexEffects =
      uleb (2 ^ 33) ++ (List.replicate (2 ^ 33) 0 ++ [0]) := by
    rw [bincodeEffects, show cexEffects.digestBytes = List.replicate (2 ^ 33) 0 from rfl,
      show cexEffects.body = ([] : List Nat) from rfl, hbb, bcsBytes,
      List.length_replicate, List.append_assoc]
  have hlenE : (bincodeEffects cexEffects).length = 2 ^ 33 + 6 := by
    rw [hshapeE, List.length_append, List.length_append, List.length_replicate, h5]
    norm_num
  have htake6 : ∀ T : List Nat, (bincodeEffects cexEffects ++ T).take 6 =
      uleb (2 ^ 33) ++ [0] := by
    intro T
    have htail : ((List.replicate (2 ^ 33) 0 ++ [0]) ++ T).take 1 = [0] := by
      rw [List.take_append_eq_append_take, List.take_append_eq_append_take,
        List.take_replicate, List.length_replicate, List.length_append,
        List.length_replicate]
      norm_num
    rw [hshapeE, List.append_assoc, List.take_append_eq_append_take,
      List.take_of_length_le (by rw [h5]; norm_num), h5,
      show 6 - 5 = 1 from rfl, htail]
  have hdec6 : bincodeEffectsDec (uleb (2 ^ 33) ++ [0]) = none := by
    simp only [bincodeEffectsDec, bcsBytesDec, ulebDec_uleb]
    rw [if_neg (by norm_num)]
  have hnone : txFrameDec (txFrame cexEffects []) = none := by
    have hfr : txFrame cexEffects [] =
        toBE32 (bincodeEffects cexEffects).length ++
          (bincodeEffects cexEffects ++
            (toBE32 (jsonEvents []).length ++ jsonEvents [])) := by
      rw [txFrame]
      simp [List.append_assoc]
    rw [hfr]
    simp only [txFrameDec, fromBE32_toBE32]
    rw [hlenE, show (2 ^ 33 + 6) % 2 ^ 32 = 6 from by norm_num]
    rw [if_pos (by rw [List.length_append, hlenE]; omega)]
    rw [htake6, hdec6]
  rw [hnone]
  simp

/-! ## Handler construction -/

/-- C2: for both constructors, a live listener on the configured address is a
    fatal startup panic; a stale file with no live listener is removed and the
    construction succeeds.  The hypothesis records that for a path-bound
    socket a live listener implies the file exists. -/
theorem c2_bind_semantics (env : FsEnv)
    (hfs : env.listenerLive = true → env.pathExists = true) :
    (env.listenerLive = true →
      CacheUpdateHandler.new env =
        NewOutcome.fatal "Socket is already in use by another process" ∧
      TxHandler.new env = NewOutcome.fatal "Failed to bind tx socket") ∧
    (env.pathExists = true → env.listenerLive = false →
      CacheUpdateHandler.new env = NewOutcome.ok true ∧
      TxHandler.new env = NewOutcome.ok true) := by
  obtain ⟨pe, ll⟩ := env
  constructor
  · intro hl
    have hp := hfs hl
    simp only at hl hp
    subst hl
    subst hp
    exact ⟨rfl, rfl⟩
  · intro hp hl
    simp only at hl hp
    subst hl
    subst hp
    exact ⟨rfl, rfl⟩

/-- Witness: both constructors evaluated on a live-listener environment and a
    stale-file environment. -/
theorem c2_bind_semantics_witness :
    (CacheUpdateHandler.new ⟨true, true⟩ =
        NewOutcome.fatal "Socket is already in use by another process" ∧
      TxHandler.new ⟨true, true⟩ = NewOutcome.fatal "Failed to bind tx socket") ∧
    (CacheUpdateHandler.new ⟨true, false⟩ = NewOutcome.ok true ∧
      TxHandler.new ⟨true, false⟩ = NewOutcome.ok true) :=
  ⟨(c2_bind_semantics ⟨true, true⟩ (fun _ => rfl)).1 rfl,
    (c2_bind_semantics ⟨true, false⟩ (fun _ => rfl)).2 rfl rfl⟩

/-! ## Producer-facing calls -/

/-- C3 (counterexample): with the dispatcher terminated (queue closed),
    send_tx_effects_and_events hands the queue-closed error straight back to
    the caller instead of returning successfully, refuting the claim that
    neither publish call ever propagates a failure. -/
theorem c3_counterexample :
    (TxHandler.send_tx_effects_and_events ⟨true, []⟩ ⟨[], []⟩ []).1 =
      Except.error "Broadcast task has stopped" := rfl

/-- C3 (amended): notify_written discards the Result and absorbs every
    internal error, returning unit even on a closed queue; but
    send_tx_effects_and_events forwards the Result of queue_for_broadcast
    unchanged, so it returns an error exactly when the dispatcher has
    terminated. -/
theorem c3_error_absorption :
    (∀ (q : QueueState CacheBroadcastMessage) (objects : List (ObjectID × Object)),
      q.closed = true → CacheUpdateHandler.notify_written q objects = ((), q)) ∧
    (∀ (q : QueueState CacheBroadcastMessage) (objects : List (ObjectID × Object)),
      q.closed = false → CacheUpdateHandler.notify_written q objects =
        ((), ⟨false, q.msgs ++ [⟨objects⟩]⟩)) ∧
    (∀ (q : QueueState BroadcastMessage) (e : TransactionEffects) (evs : List SuiEvent),
      q.closed = true → TxHandler.send_tx_effects_and_events q e evs =
        (Except.error "Broadcast task has stopped", q)) ∧
    (∀ (q : QueueState BroadcastMessage) (e : TransactionEffects) (evs : List SuiEvent),
      q.closed = false → TxHandler.send_tx_effects_and_events q e evs =
        (Except.ok (), ⟨false, q.msgs ++ [⟨e, evs⟩]⟩)) := by
  refine ⟨?_, ?_, ?_, ?_⟩
  · intro q objects h
    obtain ⟨c, m⟩ := q
    simp only at h
    subst h
    rfl
  · intro q objects h
    obtain ⟨c, m⟩ := q
    simp only at h
    subst h
    rfl
  · intro q e evs h
    obtain ⟨c, m⟩ := q
    simp only at h
    subst h
    rfl
  · intro q e evs h
    obtain ⟨c, m⟩ := q
    simp only at h
    subst h
    rfl

/-- Witness: the absorption and propagation behaviour evaluated on concrete
    open and closed queues. -/
theorem c3_error_absorption_witness :
    CacheUpdateHandler.notify_written ⟨true, []⟩ [] = ((), ⟨true, []⟩) ∧
    CacheUpdateHandler.notify_written ⟨false, []⟩ [([1], [2])] =
      ((), ⟨false, [⟨[([1], [2])]⟩]⟩) ∧
    TxHandler.send_tx_effects_and_events ⟨true, []⟩ ⟨[], []⟩ [] =
      (Except.error "Broadcast task has stopped", ⟨true, []⟩) ∧
    TxHandler.send_tx_effects_and_events ⟨false, []⟩ ⟨[], []⟩ [3] =
      (Except.ok (), ⟨false, [⟨⟨[], []⟩, [3]⟩]⟩) :=
  ⟨c3_error_absorption.1 ⟨true, []⟩ [] rfl,
    c3_error_absorption.2.1 ⟨false, []⟩ [([1], [2])] rfl,
    c3_error_absorption.2.2.1 ⟨true, []⟩ ⟨[], []⟩ [] rfl,
    c3_error_absorption.2.2.2 ⟨false, []⟩ ⟨[], []⟩ [3] rfl⟩

/-- C5: on both channels, queue_for_broadcast appends the payload to the tail
    of the queue and succeeds when the dispatcher is alive, and returns the
    queue-closed error, leaving the queue unchanged, exactly when the
    dispatcher has terminated.  The embedding is a pure state transformer:
    the call performs no network write and has no suspension point, matching
    the never-blocks, no-network-io part of the claim. -/
theorem c5_enqueue :
    (∀ (q : QueueState CacheBroadcastMessage) (objects : List (ObjectID × Object)),
      (q.closed = true → CacheUpdateHandler.queue_for_broadcast q objects =
        (Except.error "Broadcast task has stopped", q)) ∧
      (q.closed = false → CacheUpdateHandler.queue_for_broadcast q objects =
        (Except.ok (), ⟨false, q.msgs ++ [⟨objects⟩]⟩))) ∧
    (∀ (q : QueueState BroadcastMessage) (e : TransactionEffects) (evs : List SuiEvent),
      (q.closed = true → TxHandler.queue_for_broadcast q e evs =
        (Except.error "Broadcast task has stopped", q)) ∧
      (q.closed = false → TxHandler.queue_for_broadcast q e evs =
        (Except.ok (), ⟨false, q.msgs ++ [⟨e, evs⟩]⟩))) := by
  constructor
  · intro q objects
    obtain ⟨c, m⟩ := q
    constructor
    · intro h
      simp only at h
      subst h
      rfl
    · intro h
      simp only at h
      subst h
      rfl
  · intro q e evs
    obtain ⟨c, m⟩ := q
    constructor
    · intro h
      simp only at h
      subst h
      rfl
    · intro h
      simp only at h
      subst h
      rfl

/-- Witness: enqueue evaluated on concrete open and closed queues of both
    channels. -/
theorem c5_enqueue_witness :
    CacheUpdateHandler.queue_for_broadcast ⟨true, []⟩ [] =
      (Except.error "Broadcast task has stopped", ⟨true, []⟩) ∧
    CacheUpdateHandler.queue_for_broadcast ⟨false, [⟨[]⟩]⟩ [([1], [2])] =
      (Except.ok (), ⟨false, [⟨[]⟩, ⟨[([1], [2])]⟩]⟩) ∧
    TxHandler.queue_for_broadcast ⟨true, []⟩ ⟨[], []⟩ [] =
      (Except.error "Broadcast task has stopped", ⟨true, []⟩) ∧
    TxHandler.queue_for_broadcast ⟨false, []⟩ ⟨[4], []⟩ [5] =
      (Except.ok (), ⟨false, [⟨⟨[4], []⟩, [5]⟩]⟩) :=
  ⟨(c5_enqueue.1 ⟨true, []⟩ []).1 rfl,
    (c5_enqueue.1 ⟨false, [⟨[]⟩]⟩ [([1], [2])]).2 rfl,
    (c5_enqueue.2 ⟨true, []⟩ ⟨[], []⟩ []).1 rfl,
    (c5_enqueue.2 ⟨false, []⟩ ⟨[4], []⟩ [5]).2 rfl⟩

/-! ## connection_count -/

/-- C10: on both handlers, connection_count returns 0 without waiting whenever
    the registry mutex is currently held elsewhere (the try-lock fails), even
    while live connections exist, and returns the registry length otherwise;
    the last conjunct exhibits a nonempty registry reported as 0. -/
theorem c10_connection_count :
    (∀ conns : List Nat, CacheUpdateHandler.connection_count true conns = 0) ∧
    (∀ conns : List Nat, CacheUpdateHandler.connection_count false conns = conns.length) ∧
    (∀ conns : List Nat, TxHandler.connection_count true conns = 0) ∧
    (∀ conns : List Nat, TxHandler.connection_count false conns = conns.length) ∧
    (CacheUpdateHandler.connection_count true [7] = 0 ∧ [7] ≠ ([] : List Nat)) :=
  ⟨fun _ => rfl, fun _ => rfl, fun _ => rfl, fun _ => rfl, rfl, by simp⟩

/-! ## Fan-out pass characterization -/

lemma popLoop_spec (i p : Nat) (wfail : Nat → Bool) (l : List Conn) :
    ∀ (acc : List Conn) (rem : List RemovedEntry),
      popLoop i p wfail l acc rem =
        (acc ++ l.filterMap (fun c => if wfail c.id then none else some (mark i c)),
          rem ++ (l.filter (fun c => wfail c.id)).map (fun c => ⟨c, p⟩)) := by
  induction l with
  | nil =>
    intro acc rem
    simp [popLoop]
  | cons c rest ih =>
    intro acc rem
    rw [popLoop]
    cases h : wfail c.id
    · simp [h, ih, List.append_assoc]
    · simp [h, ih, List.append_assoc]

theorem send_to_all_spec (i p : Nat) (wfail : Nat → Bool) (conns : List Conn) :
    send_to_all_connections i p wfail conns =
      (conns.reverse.filterMap (fun c => if wfail c.id then none else some (mark i c)),
        (conns.reverse.filter (fun c => wfail c.id)).map (fun c => ⟨c, p⟩)) := by
  rw [send_to_all_connections, popLoop_spec]
  simp

/-! ## Preservation of the delivery invariant -/

lemma inv_init : Inv init := by
  refine ⟨?_, ?_, ?_, ?_⟩ <;> simp [init, Inv]

lemma step_dispatch_nil (s : SysState) (wfail : Nat → Bool) (hq : s.queue = []) :
    step s (Ev.dispatch wfail) = s := by
  simp [step, hq]

lemma step_dispatch_serfail (s : SysState) (wfail : Nat → Bool) (i : Nat)
    (rest : List (Nat × Bool)) (hq : s.queue = (i, false) :: rest) :
    step s (Ev.dispatch wfail) = { s with queue := rest } := by
  simp [step, hq]

lemma step_dispatch_ok (s : SysState) (wfail : Nat → Bool) (i : Nat)
    (rest : List (Nat × Bool)) (hq : s.queue = (i, true) :: rest) :
    step s (Ev.dispatch wfail) =
      { s with
        registry := s.registry.reverse.filterMap
          (fun c => if wfail c.id then none else some (mark i c)),
        queue := rest,
        dispLog := s.dispLog ++ [i],
        removedLog := s.removedLog ++
          (s.registry.reverse.filter (fun c => wfail c.id)).map
            (fun c => ⟨c, s.dispLog.length⟩) } := by
  simp [step, hq, send_to_all_spec]

lemma inv_step (s : SysState) (e : Ev) (h : Inv s) : Inv (step s e) := by
  obtain ⟨hreg, hrem, hpw, hbound⟩ := h
  cases e with
  | connect =>
    refine ⟨?_, hrem, hpw, hbound⟩
    intro c hc
    replace hc : c ∈ s.registry ++ [⟨s.nextConnId, s.dispLog.length, s.enqCount, []⟩] := hc
    rcases List.mem_append.mp hc with hc | hc
    · exact hreg c hc
    · rw [List.mem_singleton] at hc
      subst hc
      exact ⟨le_refl _, (List.drop_length _).symm⟩
  | publish serOk =>
    refine ⟨hreg, hrem, ?_, ?_⟩
    · show List.Pairwise (· < ·)
        (s.dispLog ++ (s.queue ++ [(s.enqCount, serOk)]).map Prod.fst)
      rw [List.map_append, ← List.append_assoc, List.pairwise_append]
      refine ⟨hpw, by simp, ?_⟩
      intro a ha b hb
      simp only [List.map_cons, List.map_nil, List.mem_singleton] at hb
      subst hb
      exact hbound a ha
    · intro x hx
      replace hx : x ∈ s.dispLog ++ (s.queue ++ [(s.enqCount, serOk)]).map Prod.fst := hx
      rw [List.map_append, ← List.append_assoc] at hx
      show x < s.enqCount + 1
      rcases List.mem_append.mp hx with hx | hx
      · exact Nat.lt_succ_of_lt (hbound x hx)
      · simp only [List.map_cons, List.map_nil, List.mem_singleton] at hx
        subst hx
        exact Nat.lt_succ_self _
  | dispatch wfail =>
    cases hq : s.queue with
    | nil =>
      rw [step_dispatch_nil s wfail hq]
      exact ⟨hreg, hrem, hpw, hbound⟩
    | cons hd rest =>
      obtain ⟨i, serOk⟩ := hd
      rw [hq, List.map_cons] at hpw hbound
      cases serOk with
      | false =>
        rw [step_dispatch_serfail s wfail i rest hq]
        refine ⟨hreg, hrem, ?_, ?_⟩
        · show List.Pairwise (· < ·) (s.dispLog ++ rest.map Prod.fst)
          refine hpw.sublist ?_
          exact List.Sublist.append_left (List.sublist_cons_self _ _) _
        · intro x hx
          replace hx : x ∈ s.dispLog ++ rest.map Prod.fst := hx
          show x < s.enqCount
          refine hbound x ?_
          rcases List.mem_append.mp hx with hx | hx
          · exact List.mem_append_left _ hx
          · exact List.mem_append_right _ (List.mem_cons_of_mem _ hx)
      | true =>
        rw [step_dispatch_ok s wfail i rest hq]
        refine ⟨?_, ?_, ?_, ?_⟩
        · intro c hc
          replace hc : c ∈ s.registry.reverse.filterMap
              (fun c => if wfail c.id then none else some (mark i c)) := hc
          rw [List.mem_filterMap] at hc
          obtain ⟨a, ha, hfa⟩ := hc
          rw [List.mem_reverse] at ha
          obtain ⟨hle, hrecv⟩ := hreg a ha
          cases hw : wfail a.id
          · rw [hw] at hfa
            simp only [Bool.false_eq_true, if_false, Option.some.injEq] at hfa
            subst hfa
            constructor
            · show a.accDisp ≤ (s.dispLog ++ [i]).length
              rw [List.length_append]
              omega
            · show a.received ++ [i] = (s.dispLog ++ [i]).drop a.accDisp
              rw [List.drop_append_of_le_length hle, hrecv]
          · rw [hw] at hfa
            simp at hfa
        · intro r hr
          replace hr : r ∈ s.removedLog ++
              (s.registry.reverse.filter (fun c => wfail c.id)).map
                (fun c => ⟨c, s.dispLog.length⟩) := hr
          rcases List.mem_append.mp hr with hr | hr
          · obtain ⟨h1, h2, h3⟩ := hrem r hr
            refine ⟨h1, ?_, ?_⟩
            · show r.failPos ≤ (s.dispLog ++ [i]).length
              rw [List.length_append]
              omega
            · show r.conn.received = ((s.dispLog ++ [i]).take r.failPos).drop r.conn.accDisp
              rw [List.take_append_of_le_length h2]
              exact h3
          · rw [List.mem_map] at hr
            obtain ⟨a, ha, rfl⟩ := hr
            rw [List.mem_filter, List.mem_reverse] at ha
            obtain ⟨hle, hrecv⟩ := hreg a ha.1
            refine ⟨hle, ?_, ?_⟩
            · show s.dispLog.length ≤ (s.dispLog ++ [i]).length
              rw [List.length_append]
              omega
            · show a.received = ((s.dispLog ++ [i]).take s.dispLog.length).drop a.accDisp
              rw [List.take_left]
              exact hrecv
        · show List.Pairwise (· < ·) ((s.dispLog ++ [i]) ++ rest.map Prod.fst)
          rw [List.append_assoc, List.singleton_append]
          exact hpw
        · intro x hx
          replace hx : x ∈ (s.dispLog ++ [i]) ++ rest.map Prod.fst := hx
          rw [List.append_assoc, List.singleton_append] at hx
          show x < s.enqCount
          exact hbound x hx

lemma inv_runFrom (evs : List Ev) : ∀ s, Inv s → Inv (runFrom s evs) := by
  induction evs with
  | nil =>
    intro s h
    exact h
  | cons e t ih =>
    intro s h
    exact ih (step s e) (inv_step s e h)

lemma inv_run (evs : List Ev) : Inv (run evs) := inv_runFrom evs init inv_init

/-! ## Preservation of the identity invariant -/

lemma mark_id (i : Nat) (c : Conn) : (mark i c).id = c.id := rfl

lemma survivors_ids (i : Nat) (wfail : Nat → Bool) (l : List Conn) :
    (l.filterMap (fun c => if wfail c.id then none else some (mark i c))).map Conn.id =
      (l.filter (fun c => !(wfail c.id))).map Conn.id := by
  induction l with
  | nil => rfl
  | cons c rest ih =>
    cases h : wfail c.id
    · simp [List.filterMap_cons, List.filter_cons, h, ih, mark_id]
    · simp [List.filterMap_cons, List.filter_cons, h, ih]

lemma nodup_append_fresh {α : Type} (A R : List α) (n : α)
    (hnd : (A ++ R).Nodup) (hn : n ∉ A ++ R) : ((A ++ [n]) ++ R).Nodup := by
  rw [List.append_assoc, List.singleton_append, List.nodup_middle, List.nodup_cons]
  exact ⟨hn, hnd⟩

lemma mem_append_fresh {α : Type} {A R : List α} {n x : α}
    (h : x ∈ (A ++ [n]) ++ R) : x ∈ A ++ R ∨ x = n := by
  rw [List.append_assoc, List.singleton_append] at h
  rcases List.mem_append.mp h with h | h
  · exact Or.inl (List.mem_append_left _ h)
  · rcases List.mem_cons.mp h with h | h
    · exact Or.inr h
    · exact Or.inl (List.mem_append_right _ h)

lemma perm_shift {α : Type} (S P R A : List α) (hmain : (S ++ P).Perm A) :
    (S ++ (R ++ P)).Perm (A ++ R) := by
  refine (List.Perm.append_left S List.perm_append_comm).trans ?_
  rw [← List.append_assoc]
  exact List.Perm.append_right R hmain

lemma idinv_init : IdInv init := by
  refine ⟨?_, ?_⟩ <;> simp [IdInv, init, removedIds]

lemma idinv_step (s : SysState) (e : Ev) (h : IdInv s) : IdInv (step s e) := by
  obtain ⟨hnd, hlt⟩ := h
  cases e with
  | connect =>
    constructor
    · show ((s.registry ++ [(⟨s.nextConnId, s.dispLog.length, s.enqCount, []⟩ : Conn)]).map
          Conn.id ++ removedIds s).Nodup
      rw [List.map_append]
      refine nodup_append_fresh (s.registry.map Conn.id) (removedIds s) s.nextConnId hnd ?_
      intro hmem
      exact absurd (hlt _ hmem) (lt_irrefl _)
    · intro idv hidv
      replace hidv :
          idv ∈ (s.registry ++ [(⟨s.nextConnId, s.dispLog.length, s.enqCount, []⟩ : Conn)]).map
            Conn.id ++ removedIds s := hidv
      rw [List.map_append] at hidv
      show idv < s.nextConnId + 1
      rcases mem_append_fresh hidv with hm | hm
      · exact Nat.lt_succ_of_lt (hlt idv hm)
      · subst hm
        exact Nat.lt_succ_self _
  | publish serOk => exact ⟨hnd, hlt⟩
  | dispatch wfail =>
    cases hq : s.queue with
    | nil =>
      rw [step_dispatch_nil s wfail hq]
      exact ⟨hnd, hlt⟩
    | cons hd rest =>
      obtain ⟨i, serOk⟩ := hd
      cases serOk with
      | false =>
        rw [step_dispatch_serfail s wfail i rest hq]
        exact ⟨hnd, hlt⟩
      | true =>
        have hfix : (fun c : Conn => !(!(wfail c.id))) = fun c : Conn => wfail c.id := by
          funext c
          simp
        have hsplit :
            (s.registry.reverse.filter (fun c => !(wfail c.id)) ++
              s.registry.reverse.filter (fun c => wfail c.id)).Perm s.registry.reverse := by
          have h0 := List.filter_append_perm (fun c : Conn => !(wfail c.id)) s.registry.reverse
          rwa [hfix] at h0
        have hmain :
            ((s.registry.reverse.filterMap
                (fun c => if wfail c.id then none else some (mark i c))).map Conn.id ++
              (s.registry.reverse.filter (fun c => wfail c.id)).map Conn.id).Perm
              (s.registry.map Conn.id) := by
          rw [survivors_ids, ← List.map_append]
          refine (hsplit.map Conn.id).trans ?_
          rw [List.map_reverse]
          exact List.reverse_perm _
        have hperm :
            ((s.registry.reverse.filterMap
                (fun c => if wfail c.id then none else some (mark i c))).map Conn.id ++
              (removedIds s ++
                (s.registry.reverse.filter (fun c => wfail c.id)).map Conn.id)).Perm
              (s.registry.map Conn.id ++ removedIds s) :=
          perm_shift _ _ (removedIds s) (s.registry.map Conn.id) hmain
        have e1 : (step s (Ev.dispatch wfail)).registry =
            s.registry.reverse.filterMap
              (fun c => if wfail c.id then none else some (mark i c)) := by
          rw [step_dispatch_ok s wfail i rest hq]
        have e2 : removedIds (step s (Ev.dispatch wfail)) =
            removedIds s ++
              (s.registry.reverse.filter (fun c => wfail c.id)).map Conn.id := by
          rw [step_dispatch_ok s wfail i rest hq]
          simp [removedIds, List.map_append, List.map_map]
        have e3 : (step s (Ev.dispatch wfail)).nextConnId = s.nextConnId := by
          rw [step_dispatch_ok s wfail i rest hq]
        constructor
        · rw [e1, e2]
          exact (hperm.nodup_iff).mpr hnd
        · intro idv hidv
          rw [e1, e2] at hidv
          rw [e3]
          exact hlt idv (hperm.mem_iff.mp hidv)

lemma idinv_runFrom (evs : List Ev) : ∀ s, IdInv s → IdInv (runFrom s evs) := by
  induction evs with
  | nil =>
    intro s h
    exact h
  | cons e t ih =>
    intro s h
    exact ih (step s e) (idinv_step s e h)

lemma idinv_run (evs : List Ev) : IdInv (run evs) := idinv_runFrom evs init idinv_init

lemma removed_sub_step (s : SysState) (e : Ev) :
    removedIds s ⊆ removedIds (step s e) := by
  intro x hx
  cases e with
  | connect => exact hx
  | publish serOk => exact hx
  | dispatch wfail =>
    cases hq : s.queue with
    | nil =>
      rw [step_dispatch_nil s wfail hq]
      exact hx
    | cons hd rest =>
      obtain ⟨i, serOk⟩ := hd
      cases serOk with
      | false =>
        rw [step_dispatch_serfail s wfail i rest hq]
        exact hx
      | true =>
        rw [step_dispatch_ok s wfail i rest hq]
        show x ∈ (s.removedLog ++
          (s.registry.reverse.filter (fun c : Conn => wfail c.id)).map
            (fun c : Conn => (⟨c, s.dispLog.length⟩ : RemovedEntry))).map
              (fun r : RemovedEntry => r.conn.id)
        rw [List.map_append]
        exact List.mem_append_left _ hx

lemma removed_sub_runFrom (evs : List Ev) :
    ∀ s, removedIds s ⊆ removedIds (runFrom s evs) := by
  induction evs with
  | nil =>
    intro s x hx
    exact hx
  | cons e t ih =>
    intro s x hx
    exact ih (step s e) (removed_sub_step s e hx)

/-! ## Delivery-window, pruning and serialization-skip claims -/

/-- C1 (amended): in every run, a live connection has received exactly the
    messages the dispatcher fanned out strictly after its accept completed
    (the suffix of the ghost dispatch log from its accept position), and a
    pruned connection exactly the messages fanned out strictly after its
    accept and strictly before its first write failure; each receive log is
    strictly increasing in enqueue order.  Unlike the claim as written, the
    window opens at the connection's accept measured in dispatched messages,
    not enqueued ones: a message still sitting in the queue when the
    connection is accepted is delivered to it (see the counterexample). -/
theorem c1_delivery_window (evs : List Ev) :
    (∀ c ∈ (run evs).registry,
      c.received = (run evs).dispLog.drop c.accDisp ∧
        List.Pairwise (· < ·) c.received) ∧
    (∀ r ∈ (run evs).removedLog,
      r.conn.received = ((run evs).dispLog.take r.failPos).drop r.conn.accDisp ∧
        List.Pairwise (· < ·) r.conn.received) := by
  obtain ⟨hreg, hrem, hpw, _⟩ := inv_run evs
  have hpwlog : List.Pairwise (· < ·) (run evs).dispLog :=
    hpw.sublist (List.sublist_append_left _ _)
  constructor
  · intro c hc
    obtain ⟨hle, hrecv⟩ := hreg c hc
    refine ⟨hrecv, ?_⟩
    rw [hrecv]
    exact hpwlog.sublist (List.drop_sublist _ _)
  · intro r hr
    obtain ⟨h1, h2, h3⟩ := hrem r hr
    refine ⟨h3, ?_⟩
    rw [h3]
    exact hpwlog.sublist ((List.drop_sublist _ _).trans (List.take_sublist _ _))

/-- Witness: the delivery window evaluated on the concrete three-event
    trace. -/
theorem c1_delivery_window_witness :
    (∀ c ∈ (run c1trace).registry,
      c.received = (run c1trace).dispLog.drop c.accDisp ∧
        List.Pairwise (· < ·) c.received) ∧
    (∀ r ∈ (run c1trace).removedLog,
      r.conn.received = ((run c1trace).dispLog.take r.failPos).drop r.conn.accDisp ∧
        List.Pairwise (· < ·) r.conn.received) :=
  c1_delivery_window c1trace

/-- C1 (counterexample): on the trace publish, connect, dispatch the sole
    connection is accepted after one message was already enqueued (its accEnq
    ghost is 1) and still receives that message (index 0), refuting the
    claim that a connection never receives a message enqueued before it
    connected. -/
theorem c1_counterexample :
    ¬ (∀ evs : List Ev, ∀ c ∈ (run evs).registry, ∀ i ∈ c.received, c.accEnq ≤ i) := by
  intro h
  have hreg : (run c1trace).registry = [⟨0, 0, 1, [0]⟩] := rfl
  have h3 := h c1trace ⟨0, 0, 1, [0]⟩
    (by rw [hreg]; exact List.mem_singleton_self _) 0 (List.mem_singleton_self 0)
  exact absurd h3 (by decide)

/-- C4: a connection pruned in some run stays pruned in every extension of
    that run: its identity remains in the removal log, never reappears in the
    registry (never retried, never re-added), and the fan-out pass treats
    every connection independently — the survivors and the pruned set are
    pointwise filters of the registry by each connection's own write outcome,
    so one connection's failure cannot affect another's delivery. -/
theorem c4_prune_permanent (evs evs' : List Ev) (idv : Nat)
    (h : idv ∈ removedIds (run evs)) :
    idv ∈ removedIds (run (evs ++ evs')) ∧
    idv ∉ (run (evs ++ evs')).registry.map Conn.id ∧
    (∀ (k p : Nat) (wfail : Nat → Bool) (conns : List Conn),
      send_to_all_connections k p wfail conns =
        (conns.reverse.filterMap (fun c => if wfail c.id then none else some (mark k c)),
          (conns.reverse.filter (fun c => wfail c.id)).map (fun c => ⟨c, p⟩))) := by
  have hrun : run (evs ++ evs') = runFrom (run evs) evs' := by
    rw [run, run, runFrom, runFrom, runFrom, List.foldl_append]
  have hmem : idv ∈ removedIds (run (evs ++ evs')) := by
    rw [hrun]
    exact removed_sub_runFrom evs' (run evs) h
  refine ⟨hmem, ?_, fun k p wfail conns => send_to_all_spec k p wfail conns⟩
  obtain ⟨hnd, _⟩ := idinv_run (evs ++ evs')
  rw [List.nodup_append] at hnd
  exact fun hin => hnd.2.2 hin hmem

/-- Witness: a connection pruned by the first trace stays out of the registry
    across a second trace that accepts and serves a new connection. -/
theorem c4_prune_permanent_witness :
    0 ∈ removedIds (run ([Ev.connect, Ev.publish true, Ev.dispatch (fun _ => true)] ++
        [Ev.connect, Ev.publish true, Ev.dispatch (fun _ => false)])) ∧
    0 ∉ (run ([Ev.connect, Ev.publish true, Ev.dispatch (fun _ => true)] ++
        [Ev.connect, Ev.publish true, Ev.dispatch (fun _ => false)])).registry.map Conn.id :=
  ⟨(c4_prune_permanent [Ev.connect, Ev.publish true, Ev.dispatch (fun _ => true)]
      [Ev.connect, Ev.publish true, Ev.dispatch (fun _ => false)] 0 (by decide)).1,
    (c4_prune_permanent [Ev.connect, Ev.publish true, Ev.dispatch (fun _ => true)]
      [Ev.connect, Ev.publish true, Ev.dispatch (fun _ => false)] 0 (by decide)).2.1⟩

/-- C8: when the head of the queue is a message whose serialization fails,
    the dispatcher's step leaves the whole state unchanged except for
    removing that message from the queue: no write happens, no connection is
    touched or pruned, nothing is logged as delivered, no producer is
    notified — and every continuation from that state is identical to the
    continuation had the message never been enqueued, so subsequent messages
    are delivered unaffected. -/
theorem c8_serialization_skip (s : SysState) (wfail : Nat → Bool) (i : Nat)
    (rest : List (Nat × Bool)) (h : s.queue = (i, false) :: rest) :
    step s (Ev.dispatch wfail) = { s with queue := rest } ∧
    ∀ evs : List Ev, runFrom (step s (Ev.dispatch wfail)) evs =
      runFrom { s with queue := rest } evs := by
  have h1 := step_dispatch_serfail s wfail i rest h
  exact ⟨h1, fun evs => by rw [h1]⟩

/-- Witness: the serialization-failure skip evaluated on a concrete state. -/
theorem c8_serialization_skip_witness :
    step ⟨1, [], [(0, false)], 1, [], []⟩ (Ev.dispatch (fun _ => false)) =
      ⟨1, [], [], 1, [], []⟩ :=
  (c8_serialization_skip ⟨1, [], [(0, false)], 1, [], []⟩ (fun _ => false) 0 [] rfl).1

/-! ## The registry mutex in the fine-grained model -/

lemma nodup_snoc {α : Type} (X : List α) (n : α) (h : X.Nodup) (hn : n ∉ X) :
    (X ++ [n]).Nodup := by
  rw [List.nodup_append]
  refine ⟨h, List.nodup_singleton n, ?_⟩
  intro a ha hb
  rw [List.mem_singleton] at hb
  subst hb
  exact hn ha

lemma perm_snoc_mid {α : Type} (A B C : List α) (c : α) :
    (((A ++ [c]) ++ B) ++ C).Perm ((A ++ B) ++ (c :: C)) := by
  have h1 : ((A ++ [c]) ++ B) ++ C = A ++ ([c] ++ (B ++ C)) := by
    simp [List.append_assoc]
  have h2 : (A ++ B) ++ (c :: C) = A ++ (B ++ (c :: C)) := by
    simp [List.append_assoc]
  rw [h1, h2, List.singleton_append]
  exact List.Perm.append_left A (List.perm_middle).symm

lemma perm_snoc_shift {α : Type} (A B C : List α) (c : α) :
    ((A ++ (B ++ [c])) ++ C).Perm (((A ++ [c]) ++ B) ++ C) := by
  have h1 : (A ++ (B ++ [c])) ++ C = A ++ (B ++ (c :: C)) := by
    simp [List.append_assoc]
  have h2 : ((A ++ [c]) ++ B) ++ C = A ++ (c :: (B ++ C)) := by
    simp [List.append_assoc]
  rw [h1, h2]
  exact List.Perm.append_left A List.perm_middle

lemma eq_dropLast_append {α : Type} {l : List α} {c : α} (h : l.getLast? = some c) :
    l = l.dropLast ++ [c] := by
  have hne : l ≠ [] := by
    intro he
    rw [he] at h
    simp [List.getLast?] at h
  rw [List.getLast?_eq_getLast l hne, Option.some.injEq] at h
  rw [← h]
  exact (List.dropLast_append_getLast hne).symm

lemma ginv_ginit : GInv ginit := by
  refine ⟨?_, ?_, ?_⟩ <;> simp [ginit, GInv, gconns]

lemma ginv_gstepOr (s : GState) (e : GEv) (h : GInv s) : GInv (gstepOr s e) := by
  obtain ⟨hdl, hnd, hbound⟩ := h
  cases e with
  | osAccept =>
    refine ⟨hdl, ?_, ?_⟩
    · show ((s.registry ++ s.survivors) ++ (s.pending ++ [s.nextId])).Nodup
      rw [← List.append_assoc]
      refine nodup_snoc _ _ hnd ?_
      intro hm
      exact absurd (hbound _ (List.mem_append_left _ hm)) (lt_irrefl _)
    · intro x hx
      replace hx : x ∈ ((s.registry ++ s.survivors) ++ (s.pending ++ [s.nextId])) ++ s.pruned :=
        hx
      show x < s.nextId + 1
      rcases List.mem_append.mp hx with hx | hxP
      · rcases List.mem_append.mp hx with hx1 | hx2
        · exact Nat.lt_succ_of_lt
            (hbound x (List.mem_append_left _ (List.mem_append_left _ hx1)))
        · rcases List.mem_append.mp hx2 with hx3 | hx4
          · exact Nat.lt_succ_of_lt
              (hbound x (List.mem_append_left _ (List.mem_append_right _ hx3)))
          · rw [List.mem_singleton] at hx4
            subst hx4
            exact Nat.lt_succ_self _
      · exact Nat.lt_succ_of_lt (hbound x (List.mem_append_right _ hxP))
  | acqAccept =>
    cases hl : s.lock with
    | free =>
      cases hp : s.pending with
      | nil =>
        have hb : gstepOr s GEv.acqAccept = s := by simp [gstepOr, gstep, hl, hp]
        rw [hb]
        exact ⟨hdl, hnd, hbound⟩
      | cons c rest =>
        have hs : gstepOr s GEv.acqAccept = { s with lock := LockOwner.acceptor } := by
          simp [gstepOr, gstep, hl, hp]
        rw [hs]
        refine ⟨?_, hnd, hbound⟩
        intro hdr
        have hx := hdl hdr
        rw [hl] at hx
        simp at hx
    | acceptor =>
      have hb : gstepOr s GEv.acqAccept = s := by simp [gstepOr, gstep, hl]
      rw [hb]
      exact ⟨hdl, hnd, hbound⟩
    | dispatcher =>
      have hb : gstepOr s GEv.acqAccept = s := by simp [gstepOr, gstep, hl]
      rw [hb]
      exact ⟨hdl, hnd, hbound⟩
  | appendConn =>
    cases hl : s.lock with
    | acceptor =>
      cases hp : s.pending with
      | nil =>
        have hb : gstepOr s GEv.appendConn = s := by simp [gstepOr, gstep, hl, hp]
        rw [hb]
        exact ⟨hdl, hnd, hbound⟩
      | cons c rest =>
        have hs : gstepOr s GEv.appendConn =
            { s with registry := s.registry ++ [c], pending := rest,
                     lock := LockOwner.free } := by
          simp [gstepOr, gstep, hl, hp]
        rw [hs]
        have hperm : (((s.registry ++ [c]) ++ s.survivors) ++ rest).Perm
            ((s.registry ++ s.survivors) ++ (c :: rest)) := perm_snoc_mid _ _ _ _
        refine ⟨?_, ?_, ?_⟩
        · intro hdr
          have hx := hdl hdr
          rw [hl] at hx
          simp at hx
        · show (((s.registry ++ [c]) ++ s.survivors) ++ rest).Nodup
          rw [hperm.nodup_iff, ← hp]
          exact hnd
        · intro x hx
          replace hx : x ∈ (((s.registry ++ [c]) ++ s.survivors) ++ rest) ++ s.pruned := hx
          show x < s.nextId
          rcases List.mem_append.mp hx with hx | hxP
          · have hm := hperm.mem_iff.mp hx
            rw [← hp] at hm
            exact hbound x (List.mem_append_left _ hm)
          · exact hbound x (List.mem_append_right _ hxP)
    | free =>
      have hb : gstepOr s GEv.appendConn = s := by simp [gstepOr, gstep, hl]
      rw [hb]
      exact ⟨hdl, hnd, hbound⟩
    | dispatcher =>
      have hb : gstepOr s GEv.appendConn = s := by simp [gstepOr, gstep, hl]
      rw [hb]
      exact ⟨hdl, hnd, hbound⟩
  | acqDisp =>
    cases hl : s.lock with
    | free =>
      cases hdr : s.draining with
      | false =>
        have hs : gstepOr s GEv.acqDisp =
            { s with lock := LockOwner.dispatcher, draining := true, survivors := [] } := by
          simp [gstepOr, gstep, hl, hdr]
        rw [hs]
        refine ⟨fun _ => rfl, ?_, ?_⟩
        · show ((s.registry ++ []) ++ s.pending).Nodup
          refine List.Nodup.sublist ?_ hnd
          refine List.Sublist.append_right ?_ s.pending
          exact List.Sublist.append_left (List.nil_sublist _) s.registry
        · intro x hx
          replace hx : x ∈ ((s.registry ++ []) ++ s.pending) ++ s.pruned := hx
          show x < s.nextId
          rcases List.mem_append.mp hx with hx | hxP
          · rcases List.mem_append.mp hx with hx1 | hx2
            · rcases List.mem_append.mp hx1 with hx3 | hx4
              · exact hbound x
                  (List.mem_append_left _ (List.mem_append_left _ (List.mem_append_left _ hx3)))
              · simp at hx4
            · exact hbound x (List.mem_append_left _ (List.mem_append_right _ hx2))
          · exact hbound x (List.mem_append_right _ hxP)
      | true =>
        have hb : gstepOr s GEv.acqDisp = s := by simp [gstepOr, gstep, hl, hdr]
        rw [hb]
        exact ⟨hdl, hnd, hbound⟩
    | acceptor =>
      have hb : gstepOr s GEv.acqDisp = s := by simp [gstepOr, gstep, hl]
      rw [hb]
      exact ⟨hdl, hnd, hbound⟩
    | dispatcher =>
      have hb : gstepOr s GEv.acqDisp = s := by simp [gstepOr, gstep, hl]
      rw [hb]
      exact ⟨hdl, hnd, hbound⟩
  | popWrite wfail =>
    cases hl : s.lock with
    | dispatcher =>
      cases hdr : s.draining with
      | true =>
        cases hlast : s.registry.getLast? with
        | none =>
          have hb : gstepOr s (GEv.popWrite wfail) = s := by
            simp [gstepOr, gstep, hl, hdr, hlast]
          rw [hb]
          exact ⟨hdl, hnd, hbound⟩
        | some c =>
          obtain ⟨A, hA⟩ : ∃ A, s.registry.dropLast = A := ⟨_, rfl⟩
          have hs : gstepOr s (GEv.popWrite wfail) =
              { s with registry := A,
                       survivors := if wfail then s.survivors else s.survivors ++ [c],
                       pruned := if wfail then s.pruned ++ [c] else s.pruned } := by
            rw [← hA]
            simp [gstepOr, gstep, hl, hdr, hlast]
          have hregeq : s.registry = A ++ [c] := by
            rw [← hA]
            exact eq_dropLast_append hlast
          rw [gconns, hregeq] at hnd hbound
          rw [hs]
          cases wfail with
          | true =>
            refine ⟨fun _ => hl, ?_, ?_⟩
            · show ((A ++ s.survivors) ++ s.pending).Nodup
              refine List.Nodup.sublist ?_ hnd
              refine List.Sublist.append_right ?_ s.pending
              exact List.Sublist.append_right (List.sublist_append_left _ _) s.survivors
            · intro x hx
              replace hx : x ∈ ((A ++ s.survivors) ++ s.pending) ++ (s.pruned ++ [c]) := hx
              show x < s.nextId
              rcases List.mem_append.mp hx with hx | hxP
              · have hsub : ((A ++ s.survivors) ++ s.pending).Sublist
                    (((A ++ [c]) ++ s.survivors) ++ s.pending) := by
                  refine List.Sublist.append_right ?_ s.pending
                  exact List.Sublist.append_right (List.sublist_append_left _ _) s.survivors
                exact hbound x (List.mem_append_left _ (hsub.mem hx))
              · rcases List.mem_append.mp hxP with hx1 | hx2
                · exact hbound x (List.mem_append_right _ hx1)
                · rw [List.mem_singleton] at hx2
                  refine hbound x (List.mem_append_left _ (List.mem_append_left _
                    (List.mem_append_left _ ?_)))
                  rw [hx2]
                  exact List.mem_append_right _ (List.mem_singleton_self c)
          | false =>
            have hperm : ((A ++ (s.survivors ++ [c])) ++ s.pending).Perm
                (((A ++ [c]) ++ s.survivors) ++ s.pending) := perm_snoc_shift _ _ _ _
            refine ⟨fun _ => hl, ?_, ?_⟩
            · show ((A ++ (s.survivors ++ [c])) ++ s.pending).Nodup
              rw [hperm.nodup_iff]
              exact hnd
            · intro x hx
              replace hx : x ∈ ((A ++ (s.survivors ++ [c])) ++ s.pending) ++ s.pruned := hx
              show x < s.nextId
              rcases List.mem_append.mp hx with hx | hxP
              · exact hbound x (List.mem_append_left _ (hperm.mem_iff.mp hx))
              · exact hbound x (List.mem_append_right _ hxP)
      | false =>
        have hb : gstepOr s (GEv.popWrite wfail) = s := by
          simp [gstepOr, gstep, hl, hdr]
        rw [hb]
        exact ⟨hdl, hnd, hbound⟩
    | free =>
      have hb : gstepOr s (GEv.popWrite wfail) = s := by simp [gstepOr, gstep, hl]
      rw [hb]
      exact ⟨hdl, hnd, hbound⟩
    | acceptor =>
      have hb : gstepOr s (GEv.popWrite wfail) = s := by simp [gstepOr, gstep, hl]
      rw [hb]
      exact ⟨hdl, hnd, hbound⟩
  | finishDrain =>
    cases hl : s.lock with
    | dispatcher =>
      cases hdr : s.draining with
      | true =>
        cases hreg : s.registry with
        | cons a t =>
          have hb : gstepOr s GEv.finishDrain = s := by
            simp [gstepOr, gstep, hl, hdr, hreg]
          rw [hb]
          exact ⟨hdl, hnd, hbound⟩
        | nil =>
          have hs : gstepOr s GEv.finishDrain =
              { s with registry := s.survivors, survivors := [], draining := false,
                       lock := LockOwner.free } := by
            simp [gstepOr, gstep, hl, hdr, hreg]
          rw [hs]
          rw [gconns, hreg, List.nil_append] at hnd hbound
          refine ⟨?_, ?_, ?_⟩
          · intro hfalse
            simp at hfalse
          · show ((s.survivors ++ []) ++ s.pending).Nodup
            rw [List.append_nil]
            exact hnd
          · intro x hx
            replace hx : x ∈ ((s.survivors ++ []) ++ s.pending) ++ s.pruned := hx
            rw [List.append_nil] at hx
            show x < s.nextId
            exact hbound x hx
      | false =>
        have hb : gstepOr s GEv.finishDrain = s := by simp [gstepOr, gstep, hl, hdr]
        rw [hb]
        exact ⟨hdl, hnd, hbound⟩
    | free =>
      have hb : gstepOr s GEv.finishDrain = s := by simp [gstepOr, gstep, hl]
      rw [hb]
      exact ⟨hdl, hnd, hbound⟩
    | acceptor =>
      have hb : gstepOr s GEv.finishDrain = s := by simp [gstepOr, gstep, hl]
      rw [hb]
      exact ⟨hdl, hnd, hbound⟩

lemma ginv_foldl (evs : List GEv) : ∀ s, GInv s → GInv (evs.foldl gstepOr s) := by
  induction evs with
  | nil =>
    intro s h
    exact h
  | cons e t ih =>
    intro s h
    exact ih (gstepOr s e) (ginv_gstepOr s e h)

lemma ginv_grun (evs : List GEv) : GInv (grun evs) := ginv_foldl evs ginit ginv_ginit

/-- C9: in every interleaving of the fine-grained model, whenever a drain is
    in progress the dispatcher holds the registry mutex, so both steps the
    accept task would need to mutate the registry — acquiring the lock and
    performing the append — are blocked; an append therefore completes
    entirely before a drain-replace cycle or entirely after it.  Together
    with the invariant that the tracked connections (registry, survivor
    accumulator and pending appends) are pairwise distinct, no accepted
    connection is ever lost to a partially-observed drain or double-counted. -/
theorem c9_registry_atomicity (evs : List GEv) :
    ((grun evs).draining = true →
      (grun evs).lock = LockOwner.dispatcher ∧
      gstep (grun evs) GEv.acqAccept = none ∧
      gstep (grun evs) GEv.appendConn = none) ∧
    (gconns (grun evs)).Nodup := by
  obtain ⟨hdl, hnd, _⟩ := ginv_grun evs
  refine ⟨?_, hnd⟩
  intro hdr
  have hlock := hdl hdr
  refine ⟨hlock, ?_, ?_⟩
  · cases hp : (grun evs).pending with
    | nil => simp [gstep, hlock, hp]
    | cons a t => simp [gstep, hlock, hp]
  · cases hp : (grun evs).pending with
    | nil => simp [gstep, hlock, hp]
    | cons a t => simp [gstep, hlock, hp]

/-- Witness: after one accepted connection and the dispatcher taking the lock
    to drain, both accept-side steps are blocked and the tracked connections
    are distinct. -/
theorem c9_registry_atomicity_witness :
    (grun [GEv.osAccept, GEv.acqDisp]).lock = LockOwner.dispatcher ∧
    gstep (grun [GEv.osAccept, GEv.acqDisp]) GEv.acqAccept = none ∧
    gstep (grun [GEv.osAccept, GEv.acqDisp]) GEv.appendConn = none ∧
    (gconns (grun [GEv.osAccept, GEv.acqDisp])).Nodup := by
  have h := c9_registry_atomicity [GEv.osAccept, GEv.acqDisp]
  have h1 := h.1 rfl
  exact ⟨h1.1, h1.2.1, h1.2.2, h.2⟩

end Sui
